import Mathlib

/-!
Verification of the "Resumable Catalog Fetcher" core of the movie-analytics
repository (movie_fetcher).  The definitions below are a shallow embedding of
the Python sources:

* `src/movie_fetcher/src/models/movie.py`       — data model and filename rule
* `src/movie_fetcher/src/utils/file_handler.py` — persistence store
* `src/movie_fetcher/src/services/tmdb_service.py`  — enrichment client
* `src/movie_fetcher/src/services/trakt_service.py` — catalog client, rate limiter

Conventions used throughout:
* Python `int` fields become `Nat` (identifiers, counters) or `Int` (years);
  the rating mean, a Python float never inspected by the code under study,
  is modelled as `ℚ`.
* Dates / datetimes are carried as their ISO strings (the code only ever
  serializes them).
* Network calls are modelled by explicit environments (pure functions from
  request parameters to responses); each outbound call is additionally
  recorded in an event trace so that ordering properties (rate-limiter
  guarding) can be stated.
-/

namespace MovieFetcher

/-! ## Data model (`src/models/movie.py`) -/

structure Keyword where
  id : Nat
  name : String
deriving DecidableEq

structure Ids where
  trakt : Nat
  slug : String
  imdb : Option String
  tmdb : Option Nat
deriving DecidableEq

structure Stats where
  watchers : Nat
  plays : Nat
  collectors : Nat
  comments : Nat
  lists : Nat
  votes : Nat
  recommended : Nat
deriving DecidableEq

structure Rating where
  rating : ℚ
  votes : Nat
  distribution : List (String × Nat)
deriving DecidableEq

structure Movie where
  title : String
  year : Int
  ids : Ids
  tagline : Option String
  overview : Option String
  released : Option String
  runtime : Option Nat
  country : Option String
  updatedAt : Option String
  trailer : Option String
  homepage : Option String
  status : Option String
  language : Option String
  availableTranslations : List String
  genres : List String
  certification : Option String
  stats : Stats
  rating : Rating
  keywords : List Keyword
deriving DecidableEq

/-- Little-endian decimal digit characters of `n`, with explicit fuel so
that the kernel can evaluate it (used through `natDecimal` below). -/
def natDecimalAux : Nat → Nat → List Char
  | 0, _ => []
  | _ + 1, 0 => []
  | fuel + 1, n + 1 =>
    Nat.digitChar ((n + 1) % 10) :: natDecimalAux fuel ((n + 1) / 10)

/-- Decimal rendering of a natural number, as Python's `str(int)` produces
for the non-negative identifiers used by the fetcher. -/
def natDecimal (n : Nat) : List Char :=
  if n = 0 then ['0'] else (natDecimalAux n n).reverse

theorem natDecimalAux_eq : ∀ (fuel n : Nat), n ≤ fuel →
    natDecimalAux fuel n = (Nat.digits 10 n).map Nat.digitChar
  | fuel, 0, _ => by cases fuel <;> simp [natDecimalAux]
  | fuel + 1, n + 1, h => by
    rw [natDecimalAux, Nat.digits_def' (by norm_num : (1:ℕ) < 10) (Nat.succ_pos n),
      List.map_cons]
    congr 1
    exact natDecimalAux_eq fuel ((n + 1) / 10)
      (le_trans (Nat.lt_succ_iff.mp (Nat.div_lt_self (Nat.succ_pos n) (by norm_num)))
        (Nat.succ_le_succ_iff.mp h))

theorem natDecimal_eq_digits (n : Nat) :
    natDecimal n = if n = 0 then ['0']
      else ((Nat.digits 10 n).map Nat.digitChar).reverse := by
  by_cases h : n = 0
  · simp [natDecimal, h]
  · simp [natDecimal, h, natDecimalAux_eq n n le_rfl]

/-- Reading a decimal character string back to a number (verification
helper, not part of the source). -/
def decodeDecimal (cs : List Char) : Nat :=
  Nat.ofDigits 10 (cs.reverse.map (fun c => c.toNat - '0'.toNat))

/-- Sanitization from `Movie.get_filename`:
`"".join(c if c.isalnum() else "_" for c in self.title)`.
`Char.isAlphanum` is the Lean analogue of `str.isalnum` (they agree on
ASCII; the distinction is irrelevant to every property proved below, none
of which depends on which characters are replaced). -/
def sanitizeTitle (t : String) : String :=
  ⟨t.data.map (fun c => if c.isAlphanum then c else '_')⟩

/-- Filename rule from `Movie.get_filename`:
`f"{clean_title}_{self.ids.trakt}.json"`. -/
def mkFilename (title : String) (n : Nat) : String :=
  ⟨(sanitizeTitle title).data ++ '_' :: (natDecimal n ++ ".json".data)⟩

def Movie.getFilename (m : Movie) : String :=
  mkFilename m.title m.ids.trakt

theorem digitChar_sub_zero : ∀ d : Fin 10,
    (Nat.digitChar d.val).toNat - '0'.toNat = d.val := by decide

theorem digitChar_isDigit : ∀ d : Fin 10,
    (Nat.digitChar d.val).isDigit = true := by decide

theorem decode_natDecimal (n : Nat) : decodeDecimal (natDecimal n) = n := by
  rw [natDecimal_eq_digits]
  by_cases h : n = 0
  · subst h; simp; decide
  · simp only [if_neg h, decodeDecimal, List.reverse_reverse, List.map_map]
    have hmap : (Nat.digits 10 n).map ((fun c => c.toNat - '0'.toNat) ∘ Nat.digitChar)
        = (Nat.digits 10 n).map id := by
      apply List.map_congr_left
      intro d hd
      have hlt : d < 10 := Nat.digits_lt_base (by norm_num) hd
      exact digitChar_sub_zero ⟨d, hlt⟩
    rw [hmap, List.map_id, Nat.ofDigits_digits]

theorem natDecimal_inj {a b : Nat} (h : natDecimal a = natDecimal b) : a = b := by
  have := congrArg decodeDecimal h
  rwa [decode_natDecimal, decode_natDecimal] at this

theorem natDecimal_isDigit (n : Nat) : ∀ c ∈ natDecimal n, c.isDigit = true := by
  rw [natDecimal_eq_digits]
  intro c hc
  by_cases h : n = 0
  · subst h
    simp at hc
    subst hc; decide
  · simp only [if_neg h, List.mem_reverse, List.mem_map] at hc
    obtain ⟨d, hd, rfl⟩ := hc
    have hlt : d < 10 := Nat.digits_lt_base (by norm_num) hd
    exact digitChar_isDigit ⟨d, hlt⟩

/-- If two lists of digit characters are followed by an underscore
separator and something else, equality of the whole strings forces
equality of the digit blocks. -/
theorem digit_block_inj (a1 : List Char) : ∀ (a2 r1 r2 : List Char),
    (∀ c ∈ a1, c.isDigit = true) → (∀ c ∈ a2, c.isDigit = true) →
    a1 ++ '_' :: r1 = a2 ++ '_' :: r2 → a1 = a2 := by
  induction a1 with
  | nil =>
    intro a2 r1 r2 _ h2 heq
    cases a2 with
    | nil => rfl
    | cons c t =>
      exfalso
      have hc : '_' = c := by
        have := congrArg List.head? heq
        simpa using this
      have hd := h2 c (List.mem_cons_self c t)
      rw [← hc] at hd
      exact absurd hd (by decide)
  | cons c1 t1 ih =>
    intro a2 r1 r2 h1 h2 heq
    cases a2 with
    | nil =>
      exfalso
      have hc : c1 = '_' := by
        have := congrArg List.head? heq
        simpa using this
      have hd := h1 c1 (List.mem_cons_self c1 t1)
      rw [hc] at hd
      exact absurd hd (by decide)
    | cons c2 t2 =>
      simp only [List.cons_append, List.cons.injEq] at heq
      obtain ⟨hc, ht⟩ := heq
      rw [hc, ih t2 r1 r2 (fun c hm => h1 c (List.mem_cons_of_mem _ hm))
        (fun c hm => h2 c (List.mem_cons_of_mem _ hm)) ht]

theorem append_cancel_right_chars {α : Type} {x y j : List α}
    (h : x ++ j = y ++ j) : x = y := by
  have hrev := congrArg List.reverse h
  simp only [List.reverse_append] at hrev
  exact List.reverse_injective (List.append_cancel_left hrev)

theorem rev_sep (s d : List Char) :
    (s ++ '_' :: d).reverse = d.reverse ++ '_' :: s.reverse := by
  simp [List.reverse_append]

/-- The numeric identifier can always be recovered from a generated
filename: distinct identifiers give distinct filenames. -/
theorem mkFilename_inj_id {t1 t2 : String} {n1 n2 : Nat}
    (h : mkFilename t1 n1 = mkFilename t2 n2) : n1 = n2 := by
  have hl : (sanitizeTitle t1).data ++ '_' :: (natDecimal n1 ++ ".json".data)
      = (sanitizeTitle t2).data ++ '_' :: (natDecimal n2 ++ ".json".data) := by
    have := congrArg String.data h
    simpa [mkFilename] using this
  have hl2 : ((sanitizeTitle t1).data ++ '_' :: natDecimal n1) ++ ".json".data
      = ((sanitizeTitle t2).data ++ '_' :: natDecimal n2) ++ ".json".data := by
    simpa [List.append_assoc, List.cons_append] using hl
  have hl3 := append_cancel_right_chars hl2
  have hrev := congrArg List.reverse hl3
  rw [rev_sep, rev_sep] at hrev
  have hdigits := digit_block_inj _ _ _ _
    (fun c hc => natDecimal_isDigit n1 c (List.mem_reverse.mp hc))
    (fun c hc => natDecimal_isDigit n2 c (List.mem_reverse.mp hc)) hrev
  exact natDecimal_inj (List.reverse_injective hdigits)

/-! Sample records used by concrete witnesses and counterexamples. -/

def sampleStats : Stats := ⟨0, 0, 0, 0, 0, 0, 0⟩

def sampleRating : Rating := ⟨7, 3, []⟩

def mkMovie (title : String) (traktId : Nat) (slug : String) : Movie :=
  { title := title, year := 2015,
    ids := { trakt := traktId, slug := slug, imdb := none, tmdb := none },
    tagline := none, overview := none, released := none, runtime := none,
    country := none, updatedAt := none, trailer := none, homepage := none,
    status := none, language := none, availableTranslations := [],
    genres := [], certification := none,
    stats := sampleStats, rating := sampleRating, keywords := [] }

/-- C9: the item filename `Movie.get_filename` is deterministic in the pair
(title, trakt id), and any two movies with distinct trakt ids receive
distinct filenames `<sanitized-title>_<id>.json`, even when the sanitized
titles collide or titles contain underscores and digits. -/
theorem c9_filename_distinct (m1 m2 : Movie) :
    (m1.title = m2.title → m1.ids.trakt = m2.ids.trakt →
      m1.getFilename = m2.getFilename) ∧
    (m1.ids.trakt ≠ m2.ids.trakt → m1.getFilename ≠ m2.getFilename) := by
  constructor
  · intro ht hid
    simp [Movie.getFilename, ht, hid]
  · intro hne heq
    exact hne (mkFilename_inj_id heq)

/-- C9 witness: the titles "A B1" and "A_B1" both sanitize to "A_B1"
(a collision, and the titles contain underscores and digits); the
filenames still differ because the trakt ids 7 and 12 differ. -/
theorem c9_filename_distinct_witness :
    (mkMovie "A B1" 7 "s1").getFilename ≠ (mkMovie "A_B1" 12 "s2").getFilename :=
  (c9_filename_distinct (mkMovie "A B1" 7 "s1") (mkMovie "A_B1" 12 "s2")).2 (by decide)

/-! ## Persistence store (`src/utils/file_handler.py`) -/

structure IndexEntry where
  id : Nat
  title : String
  year : Int
  filename : String
  filePath : String
  addedAt : String
deriving DecidableEq

structure Index where
  movies : List IndexEntry
  lastUpdated : Option String
  lastPage : Nat
deriving DecidableEq

/-- Abstract state of the store: the per-movie JSON files under
`data/movies` (an association from filename to the record written there)
together with the persisted `movies_index.json`.  The `fetched_ids` field
of the on-disk index is derived (`[m["id"] for m in movie_index]`,
recomputed by `_save_index` on every save) and is therefore represented by
`getFetchedIds` below rather than stored separately. -/
structure StoreState where
  files : List (String × Movie)
  index : Index
deriving DecidableEq

/-- Default index produced by `FileHandler._load_index` when no index file
exists yet: empty movie list, null timestamp, page 0, and no files. -/
def emptyStore : StoreState :=
  { files := [], index := { movies := [], lastUpdated := none, lastPage := 0 } }

/-- Writing a file with `open(file_path, "w")`: replaces the content if a
file of that name exists, creates it otherwise. -/
def writeFile (fs : List (String × Movie)) (name : String) (m : Movie) :
    List (String × Movie) :=
  if fs.any (fun p => p.1 == name) then
    fs.map (fun p => if p.1 == name then (name, m) else p)
  else fs ++ [(name, m)]

/-- Index entry appended by the loop body of `FileHandler.save_movies`. -/
def mkEntry (now : String) (m : Movie) : IndexEntry :=
  { id := m.ids.trakt, title := m.title, year := m.year,
    filename := m.getFilename,
    filePath := "data/movies/" ++ m.getFilename,
    addedAt := now }

/-- Loop body of `FileHandler.save_movies`: write the movie's file and
append its index entry to the in-memory entry list. -/
def saveOne (now : String) (st : StoreState) (m : Movie) : StoreState :=
  { files := writeFile st.files m.getFilename m,
    index := { st.index with movies := st.index.movies ++ [mkEntry now m] } }

/-- Derived `fetched_ids` list written by `FileHandler._save_index`
(also the id set `existing_movies` that `save_movies` deduplicates
against). -/
def getFetchedIds (st : StoreState) : List Nat :=
  st.index.movies.map (fun e => e.id)

/-- `FileHandler.get_last_page`. -/
def getLastPage (st : StoreState) : Nat := st.index.lastPage

/-- The `new_movies` list of `FileHandler.save_movies`:
`[m for m in movies if m.ids.trakt not in existing_movies]`. -/
def newBatch (st : StoreState) (movies : List Movie) : List Movie :=
  movies.filter (fun m => !((getFetchedIds st).contains m.ids.trakt))

/-- `FileHandler.save_movies(movies, current_page)`: drop movies whose id
is already indexed; if none remain, return without touching the store
("No new movies to save"); otherwise write each new movie's file and
append its entry, then (`_save_index`) rewrite the index with the updated
entry list, a fresh timestamp, and `current_page` as `last_page`. -/
def saveMovies (st : StoreState) (movies : List Movie) (currentPage : Nat)
    (now : String) : StoreState :=
  if (newBatch st movies).isEmpty then st
  else
    let st1 := (newBatch st movies).foldl (saveOne now) st
    { files := st1.files,
      index := { movies := st1.index.movies, lastUpdated := some now,
                 lastPage := currentPage } }

/-- Store well-formedness: index ids are duplicate-free, the files on disk
correspond one-to-one and in order with the index entries, and every
entry's filename was produced by the filename rule for that entry's id. -/
def Wf (st : StoreState) : Prop :=
  (getFetchedIds st).Nodup ∧
  st.files.map (fun p => (p.1, p.2.ids.trakt)) =
    st.index.movies.map (fun e => (e.filename, e.id)) ∧
  ∀ e ∈ st.index.movies, ∃ t, e.filename = mkFilename t e.id

theorem wf_empty : Wf emptyStore := by
  refine ⟨?_, ?_, ?_⟩ <;> simp [getFetchedIds, emptyStore]

theorem wf_files_ids {st : StoreState} (hwf : Wf st) :
    st.files.map (fun f => f.2.ids.trakt) = getFetchedIds st := by
  have := congrArg (List.map Prod.snd) hwf.2.1
  simpa [List.map_map, Function.comp, getFetchedIds] using this

theorem wf_saveOne {st : StoreState} {m : Movie} (now : String)
    (hwf : Wf st) (hfresh : m.ids.trakt ∉ getFetchedIds st) :
    Wf (saveOne now st m) ∧
      getFetchedIds (saveOne now st m) = getFetchedIds st ++ [m.ids.trakt] := by
  obtain ⟨hnd, hpairs, hnames⟩ := hwf
  have hids : getFetchedIds (saveOne now st m) = getFetchedIds st ++ [m.ids.trakt] := by
    simp [saveOne, getFetchedIds, mkEntry]
  have hkey : st.files.any (fun p => p.1 == m.getFilename) = false := by
    by_contra hany
    rw [Bool.not_eq_false, List.any_eq_true] at hany
    obtain ⟨q, hq, hqeq⟩ := hany
    have hqmem : (q.1, q.2.ids.trakt) ∈
        st.index.movies.map (fun e => (e.filename, e.id)) := by
      rw [← hpairs]
      exact List.mem_map_of_mem _ hq
    rw [List.mem_map] at hqmem
    obtain ⟨e, he, hqe⟩ := hqmem
    obtain ⟨t, hte⟩ := hnames e he
    have hf : e.filename = q.1 := congrArg Prod.fst hqe
    have hq1 : q.1 = m.getFilename := by simpa using hqeq
    have hmk : mkFilename t e.id = mkFilename m.title m.ids.trakt := by
      rw [← hte, hf, hq1]; rfl
    have hideq : e.id = m.ids.trakt := mkFilename_inj_id hmk
    exact hfresh (hideq ▸ List.mem_map_of_mem (fun e => e.id) he)
  have hwrite : writeFile st.files m.getFilename m
      = st.files ++ [(m.getFilename, m)] := by
    simp [writeFile, hkey]
  refine ⟨⟨?_, ?_, ?_⟩, hids⟩
  · rw [hids, List.nodup_append]
    refine ⟨hnd, by simp, ?_⟩
    intro a ha hb
    rw [List.mem_singleton] at hb
    exact hfresh (hb ▸ ha)
  · show (writeFile st.files m.getFilename m).map _ = _
    rw [hwrite]
    simp only [saveOne, List.map_append, List.map_cons, List.map_nil, hpairs]
    rfl
  · intro e he
    simp only [saveOne, List.mem_append, List.mem_singleton] at he
    rcases he with he | he
    · exact hnames e he
    · exact ⟨m.title, by rw [he]; rfl⟩

theorem wf_foldl (now : String) : ∀ (ms : List Movie) (st : StoreState),
    Wf st → (getFetchedIds st ++ ms.map (fun m => m.ids.trakt)).Nodup →
    Wf (ms.foldl (saveOne now) st) ∧
      getFetchedIds (ms.foldl (saveOne now) st)
        = getFetchedIds st ++ ms.map (fun m => m.ids.trakt)
  | [], st, hwf, _ => by simpa using hwf
  | m :: ms, st, hwf, hnd => by
    rw [List.map_cons] at hnd
    have hfresh : m.ids.trakt ∉ getFetchedIds st := by
      intro hmem
      exact (List.nodup_append.mp hnd).2.2 hmem (List.mem_cons_self _ _)
    obtain ⟨hwf1, hids1⟩ := wf_saveOne now hwf hfresh
    have hnd1 : (getFetchedIds (saveOne now st m)
        ++ ms.map (fun m => m.ids.trakt)).Nodup := by
      rw [hids1, List.append_assoc]
      simpa using hnd
    obtain ⟨hwf2, hids2⟩ := wf_foldl now ms (saveOne now st m) hwf1 hnd1
    refine ⟨by simpa using hwf2, ?_⟩
    rw [List.foldl_cons, hids2, hids1, List.append_assoc]
    simp

theorem newBatch_empty_iff (st : StoreState) (movies : List Movie) :
    (newBatch st movies).isEmpty = true
      ↔ ∀ m ∈ movies, m.ids.trakt ∈ getFetchedIds st := by
  rw [List.isEmpty_iff, newBatch, List.filter_eq_nil_iff]
  simp

theorem mem_newBatch {st : StoreState} {movies : List Movie} {m : Movie} :
    m ∈ newBatch st movies ↔ m ∈ movies ∧ m.ids.trakt ∉ getFetchedIds st := by
  simp [newBatch]

theorem newBatch_ids_sublist (st : StoreState) (movies : List Movie) :
    List.Sublist ((newBatch st movies).map (fun m => m.ids.trakt))
      (movies.map (fun m => m.ids.trakt)) :=
  (List.filter_sublist _).map _

theorem wf_saveMovies (st : StoreState) (movies : List Movie) (p : Nat)
    (now : String) (hwf : Wf st)
    (hnd : (movies.map (fun m => m.ids.trakt)).Nodup) :
    Wf (saveMovies st movies p now) ∧
      ∀ i, i ∈ getFetchedIds (saveMovies st movies p now) ↔
        i ∈ getFetchedIds st ∨ i ∈ movies.map (fun m => m.ids.trakt) := by
  by_cases he : (newBatch st movies).isEmpty = true
  · unfold saveMovies
    rw [if_pos he]
    refine ⟨hwf, fun i => ⟨fun h => Or.inl h, fun h => ?_⟩⟩
    rcases h with h | h
    · exact h
    · rw [List.mem_map] at h
      obtain ⟨m, hm, rfl⟩ := h
      exact (newBatch_empty_iff st movies).mp he m hm
  · have hndapp : (getFetchedIds st
        ++ (newBatch st movies).map (fun m => m.ids.trakt)).Nodup := by
      rw [List.nodup_append]
      refine ⟨hwf.1, List.Nodup.sublist (newBatch_ids_sublist st movies) hnd, ?_⟩
      intro a ha hb
      rw [List.mem_map] at hb
      obtain ⟨m, hm, rfl⟩ := hb
      exact (mem_newBatch.mp hm).2 ha
    obtain ⟨hwf1, hids1⟩ := wf_foldl now (newBatch st movies) st hwf hndapp
    unfold saveMovies
    rw [if_neg he]
    constructor
    · exact ⟨hwf1.1, hwf1.2.1, hwf1.2.2⟩
    · intro i
      show i ∈ getFetchedIds ((newBatch st movies).foldl (saveOne now) st) ↔ _
      rw [hids1, List.mem_append]
      constructor
      · rintro (h | h)
        · exact Or.inl h
        · exact Or.inr ((newBatch_ids_sublist st movies).subset h)
      · rintro (h | h)
        · exact Or.inl h
        · rw [List.mem_map] at h
          obtain ⟨m, hm, rfl⟩ := h
          by_cases hin : m.ids.trakt ∈ getFetchedIds st
          · exact Or.inl hin
          · exact Or.inr (List.mem_map_of_mem _ (mem_newBatch.mpr ⟨hm, hin⟩))

/-! Concrete sample data for witnesses and counterexamples. -/

def mv42 : Movie := mkMovie "Overlap" 42 "overlap"

def mvA : Movie := mkMovie "Alpha" 7 "alpha"

def storeWith42 : StoreState := saveMovies emptyStore [mv42] 3 "t0"

/-- C2 counterexample: with movie 42 already indexed and `last_page = 3`,
`save_movies([movie 42], 5)` hits the "no new movies" early return and
never calls `_save_index`, so `get_last_page()` still yields 3, not 5. -/
theorem c2_cursor_counterexample :
    getLastPage (saveMovies storeWith42 [mv42] 5 "t1") ≠ 5 := by decide

/-- C2 (amended): after `save_movies(items, page)` the persisted cursor
equals `page` whenever the batch contains at least one not-yet-indexed
item; when every item is already indexed, the call returns early and the
whole store — cursor included — is unchanged; and the persisted cursor is
non-decreasing whenever the passed page is at least the current cursor,
as is the case for the non-decreasing page values of a run. -/
theorem c2_cursor_amended (st : StoreState) (movies : List Movie) (p : Nat)
    (now : String) :
    ((∃ m ∈ movies, m.ids.trakt ∉ getFetchedIds st) →
        getLastPage (saveMovies st movies p now) = p) ∧
    ((∀ m ∈ movies, m.ids.trakt ∈ getFetchedIds st) →
        saveMovies st movies p now = st) ∧
    (getLastPage st ≤ p → getLastPage st ≤ getLastPage (saveMovies st movies p now)) := by
  have hemp := newBatch_empty_iff st movies
  refine ⟨?_, ?_, ?_⟩
  · rintro ⟨m, hm, hnot⟩
    have hne : ¬ (newBatch st movies).isEmpty = true := fun h => hnot (hemp.mp h m hm)
    unfold saveMovies
    rw [if_neg hne]
    rfl
  · intro hall
    unfold saveMovies
    rw [if_pos (hemp.mpr hall)]
  · intro hle
    by_cases hb : (newBatch st movies).isEmpty = true
    · unfold saveMovies
      rw [if_pos hb]
    · unfold saveMovies
      rw [if_neg hb]
      exact hle

/-- C2 witness: saving a genuinely new movie with page 7 leaves
`get_last_page() = 7`. -/
theorem c2_cursor_amended_witness :
    getLastPage (saveMovies emptyStore [mv42] 7 "t0") = 7 :=
  (c2_cursor_amended emptyStore [mv42] 7 "t0").1 ⟨mv42, by decide, by decide⟩

/-- C4 counterexample: a single `save_movies` call whose batch contains
the same movie twice (id 42 twice) appends two index entries for id 42,
so the persisted `fetched_ids` lists 42 twice — `existing_movies` is
snapshotted before the loop and never updated inside it. -/
theorem c4_duplicate_ids_counterexample :
    ¬ (getFetchedIds (saveMovies emptyStore [mv42, mv42] 1 "t0")).Nodup := by decide

/-- Driver-style sequence of `save_movies` calls. -/
def runSaves (st : StoreState) (calls : List (List Movie × Nat × String)) :
    StoreState :=
  calls.foldl (fun s c => saveMovies s c.1 c.2.1 c.2.2) st

theorem wf_runSaves : ∀ (calls : List (List Movie × Nat × String))
    (st : StoreState), Wf st →
    (∀ c ∈ calls, (c.1.map (fun m => m.ids.trakt)).Nodup) →
    Wf (runSaves st calls)
  | [], _, hwf, _ => hwf
  | c :: cs, st, hwf, h => by
    have h1 := (wf_saveMovies st c.1 c.2.1 c.2.2 hwf (h c (List.mem_cons_self _ _))).1
    exact wf_runSaves cs _ h1 (fun c' hc' => h c' (List.mem_cons_of_mem _ hc'))

/-- C4 (amended): for every sequence of `save_movies` calls starting from
the default empty store, in which each individual batch has pairwise
distinct trakt ids, the persisted `fetched_ids` list contains each
identifier at most once.  (Duplicates across batches are always removed;
the amendment excludes only duplicates inside one and the same batch,
which the code does not deduplicate — see the counterexample.) -/
theorem c4_no_duplicate_ids (calls : List (List Movie × Nat × String))
    (h : ∀ c ∈ calls, (c.1.map (fun m => m.ids.trakt)).Nodup) :
    (getFetchedIds (runSaves emptyStore calls)).Nodup :=
  (wf_runSaves calls emptyStore wf_empty h).1

/-- C4 witness: two overlapping batches of distinct-id movies produce a
duplicate-free `fetched_ids`. -/
theorem c4_no_duplicate_ids_witness :
    (getFetchedIds (runSaves emptyStore
      [([mv42, mvA], 1, "t0"), ([mv42], 2, "t1")])).Nodup :=
  c4_no_duplicate_ids [([mv42, mvA], 1, "t0"), ([mv42], 2, "t1")] (by decide)

/-- C5: `save_movies` is idempotent over already-indexed items — a call in
which every item is already indexed changes nothing at all (no file
write, no index entry, the index file is not even rewritten, so it stays
byte-for-byte identical including `last_updated` and `last_page`); and
after two overlapping calls (batches with internally distinct ids,
starting from the empty store) every identifier occurring in either batch
has exactly one index entry and exactly one file whose record carries it. -/
theorem c5_idempotent_resave :
    (∀ (st : StoreState) (movies : List Movie) (p : Nat) (now : String),
        (∀ m ∈ movies, m.ids.trakt ∈ getFetchedIds st) →
        saveMovies st movies p now = st) ∧
    (∀ (b1 b2 : List Movie) (p1 p2 : Nat) (t1 t2 : String) (i : Nat),
        (b1.map (fun m => m.ids.trakt)).Nodup →
        (b2.map (fun m => m.ids.trakt)).Nodup →
        (i ∈ b1.map (fun m => m.ids.trakt) ∨ i ∈ b2.map (fun m => m.ids.trakt)) →
        (getFetchedIds
            (saveMovies (saveMovies emptyStore b1 p1 t1) b2 p2 t2)).count i = 1 ∧
        ((saveMovies (saveMovies emptyStore b1 p1 t1) b2 p2 t2).files.map
            (fun f => f.2.ids.trakt)).count i = 1) := by
  constructor
  · intro st movies p now hall
    unfold saveMovies
    rw [if_pos ((newBatch_empty_iff st movies).mpr hall)]
  · intro b1 b2 p1 p2 t1 t2 i h1 h2 hi
    obtain ⟨hwf1, hiff1⟩ := wf_saveMovies emptyStore b1 p1 t1 wf_empty h1
    obtain ⟨hwf2, hiff2⟩ := wf_saveMovies (saveMovies emptyStore b1 p1 t1) b2 p2 t2 hwf1 h2
    have hmem : i ∈ getFetchedIds (saveMovies (saveMovies emptyStore b1 p1 t1) b2 p2 t2) := by
      rw [hiff2, hiff1]
      rcases hi with hi | hi
      · exact Or.inl (Or.inr hi)
      · exact Or.inr hi
    have hcount : (getFetchedIds
        (saveMovies (saveMovies emptyStore b1 p1 t1) b2 p2 t2)).count i = 1 :=
      List.count_eq_one_of_mem hwf2.1 hmem
    refine ⟨hcount, ?_⟩
    rw [wf_files_ids hwf2]
    exact hcount

/-- C5 witness: a second call whose only item (id 42) is already indexed
is a complete no-op, and after two overlapping saves of the id-42 movie
there is exactly one index entry for 42. -/
theorem c5_idempotent_resave_witness :
    saveMovies storeWith42 [mv42] 5 "t1" = storeWith42 ∧
    (getFetchedIds
      (saveMovies (saveMovies emptyStore [mv42] 1 "t0") [mv42] 2 "t1")).count 42 = 1 := by
  constructor
  · exact c5_idempotent_resave.1 storeWith42 [mv42] 5 "t1" (by decide)
  · exact (c5_idempotent_resave.2 [mv42] [mv42] 1 2 "t0" "t1" 42
      (by decide) (by decide) (Or.inl (by decide))).1

/-! ## Enrichment client (`src/services/tmdb_service.py`) -/

inductive FetchError
  /-- `requests.Response.raise_for_status`: raised exactly for status
  codes in [400, 600). -/
  | httpError (code : Nat)
  /-- The response body does not hold a parsable `keywords` list
  (`response.json()["keywords"]` raises). -/
  | parseError
deriving DecidableEq

/-- An HTTP response from the enrichment endpoint: its status code, and
the parsed `keywords` field of its JSON body when that parse succeeds. -/
structure HttpResponse where
  statusCode : Nat
  keywordsPayload : Option (List Keyword)
deriving DecidableEq

/-- `requests.Response.raise_for_status`: raises `HTTPError` for 4xx and
5xx status codes (`400 <= status_code < 600`) and does nothing for every
other status. -/
def raiseForStatus (r : HttpResponse) : Except FetchError Unit :=
  if 400 ≤ r.statusCode ∧ r.statusCode < 600 then .error (.httpError r.statusCode)
  else .ok ()

/-- `TMDBService.get_movie_keywords(tmdb_id)` applied to the response the
transport would return: `if not tmdb_id: return []` (None and 0 are falsy
in Python), an explicit 404 check returning `[]`, then `raise_for_status`,
then `response.json()["keywords"]`. -/
def getMovieKeywords (tmdbId : Option Nat) (resp : HttpResponse) :
    Except FetchError (List Keyword) :=
  if tmdbId.getD 0 = 0 then .ok []
  else if resp.statusCode = 404 then .ok []
  else
    match raiseForStatus resp with
    | .error e => .error e
    | .ok _ =>
      match resp.keywordsPayload with
      | some ks => .ok ks
      | none => .error .parseError

/-- C8 counterexample: the claim says any non-2xx response other than 404
raises, but `raise_for_status` only raises for 4xx/5xx.  A 304 response
(non-2xx) whose body parses to a keyword list is returned as a success. -/
theorem c8_not_found_counterexample :
    (304 < 200 ∨ 300 ≤ 304) ∧ 304 ≠ 404 ∧
      getMovieKeywords (some 7) ⟨304, some [⟨1, "a"⟩]⟩ = .ok [⟨1, "a"⟩] :=
  ⟨by decide, by decide, rfl⟩

/-- C8 (amended): a 404 from the enrichment endpoint always yields an
empty keyword list without raising; any 4xx/5xx status other than 404
raises (and, being uncaught in the fetch path, aborts the run).  Statuses
outside 400-599 are not rejected by `raise_for_status` and fall through
to body parsing. -/
theorem c8_enrichment_404 (tmdbId : Option Nat) (resp : HttpResponse) (t : Nat) :
    (resp.statusCode = 404 → getMovieKeywords tmdbId resp = .ok []) ∧
    (t ≠ 0 → 400 ≤ resp.statusCode → resp.statusCode < 600 →
      resp.statusCode ≠ 404 →
      ∃ e, getMovieKeywords (some t) resp = Except.error e) := by
  constructor
  · intro h404
    unfold getMovieKeywords
    by_cases hz : tmdbId.getD 0 = 0
    · rw [if_pos hz]
    · rw [if_neg hz, if_pos h404]
  · intro ht h4 h6 hne
    refine ⟨.httpError resp.statusCode, ?_⟩
    unfold getMovieKeywords
    rw [if_neg (by simpa using ht), if_neg hne]
    unfold raiseForStatus
    rw [if_pos ⟨h4, h6⟩]

/-- C8 witness: the spec's own scenario — secondary id 999 with a 404
yields `keywords == []`; and a 500 on the same id raises. -/
theorem c8_enrichment_404_witness :
    getMovieKeywords (some 999) ⟨404, none⟩ = .ok [] ∧
    ∃ e, getMovieKeywords (some 999) ⟨500, none⟩ = Except.error e := by
  constructor
  · exact (c8_enrichment_404 (some 999) ⟨404, none⟩ 999).1 rfl
  · exact (c8_enrichment_404 (some 999) ⟨500, none⟩ 999).2
      (by decide) (by decide) (by decide) (by decide)

/-! ## Rate limiter (`TraktService._respect_rate_limit`) -/

/-- Trakt API allows 1000 requests per 5 minutes. -/
def MAX_REQUESTS : Nat := 1000

/-- Window size: 5 minutes in seconds. -/
def WINDOW_SIZE : Nat := 300

/-- Time between requests: `WINDOW_SIZE / MAX_REQUESTS`. -/
def REQUEST_DELAY : ℚ := (WINDOW_SIZE : ℚ) / (MAX_REQUESTS : ℚ)

/-- Model of `_respect_rate_limit`.  `last` is `self.last_request_time`
and `t` the value `time.time()` returns on entry.  The function sleeps
`REQUEST_DELAY - (t - last)` when that is positive; `rateLimitRelease`
is the earliest instant at which the sleep can end.  The code then sets
`self.last_request_time = time.time()`, a clock reading taken at or after
that instant — this model of `time.sleep` (suspends at least the
requested duration, on a monotone clock) is the hypothesis of the cadence
theorem below. -/
def rateLimitRelease (last t : ℚ) : ℚ :=
  if t - last < REQUEST_DELAY then t + (REQUEST_DELAY - (t - last)) else t

/-- C6: for any two consecutive passages through the limiter, if the
previous passage completed at `prevCompletion` (stored as
`last_request_time`), the clock read `t` on entry, and the new
`last_request_time` is any clock value `t2` at or after the sleep
releases, then the completion times are at least `REQUEST_DELAY =
WINDOW_SIZE / MAX_REQUESTS` apart.  Applied along any sequence of calls
(instantiating `prevCompletion` with the previous call's completion),
the cadence never exceeds `MAX_REQUESTS` per `WINDOW_SIZE`. -/
theorem c6_rate_limiter_cadence (prevCompletion t t2 : ℚ)
    (h : rateLimitRelease prevCompletion t ≤ t2) :
    REQUEST_DELAY ≤ t2 - prevCompletion := by
  unfold rateLimitRelease at h
  by_cases hc : t - prevCompletion < REQUEST_DELAY
  · rw [if_pos hc] at h
    linarith
  · rw [if_neg hc] at h
    push_neg at hc
    linarith

/-- C6 witness: with the previous completion at 0, entry at 1/10 and the
post-sleep clock at 1/2, the enforced spacing 3/10 is respected. -/
theorem c6_rate_limiter_cadence_witness :
    REQUEST_DELAY ≤ (1 / 2 : ℚ) - 0 :=
  c6_rate_limiter_cadence 0 (1 / 10) (1 / 2)
    (by norm_num [rateLimitRelease, REQUEST_DELAY, WINDOW_SIZE, MAX_REQUESTS])

/-! ## Catalog client (`src/services/trakt_service.py`) -/

/-- Year range for movies. -/
def START_YEAR : Nat := 2010

def END_YEAR : Nat := 2023

/-- Batch size for processing. -/
def BATCH_SIZE : Nat := 50

/-- One element of the popular-movies listing response.  `get_top_movies`
reads only `movie_data["ids"]["trakt"]` (for the dedup check) and
`movie_data["ids"]["slug"]` (for the detail lookup) from it. -/
structure ListingItem where
  traktId : Nat
  slug : String
deriving DecidableEq

/-- The details payload of `GET /movies/{slug}?extended=full,stats`: the
fields that `get_top_movies` copies into the `Movie` record. -/
structure MovieDetails where
  title : String
  year : Int
  ids : Ids
  tagline : Option String
  overview : Option String
  released : Option String
  runtime : Option Nat
  country : Option String
  updatedAt : Option String
  trailer : Option String
  homepage : Option String
  status : Option String
  language : Option String
  availableTranslations : List String
  genres : List String
  certification : Option String
deriving DecidableEq

/-- Environment of upstream responses, for runs in which every request
succeeds.  (Per section 7 of the spec any transport failure or non-2xx
status propagates and aborts the run; an aborted run issues a prefix of
the trace modelled here, so the ordering properties below cover it.) -/
structure CatalogEnv where
  popular : Nat → Nat → List ListingItem
  details : String → MovieDetails
  stats : String → Stats
  ratings : String → Rating
  keywords : Nat → List Keyword

/-- Outbound interactions of a run, in order: `wait` is a passage through
`_respect_rate_limit()`; the others are the HTTP requests with the
parameters they carry. -/
inductive Event
  | wait
  | listingReq (page : Nat) (size : Nat)
  | detailsReq (slug : String)
  | statsReq (slug : String)
  | ratingsReq (slug : String)
  | keywordsReq (tmdbId : Nat)
deriving DecidableEq

/-- Python truthiness of `movie["ids"]["tmdb"]`: None and 0 are falsy. -/
def tmdbTruthy : Option Nat → Bool
  | some t => t != 0
  | none => false

/-- Per-item enrichment inside `get_top_movies`: detail lookup by slug,
stats lookup, ratings lookup — each issued through `requests.get`
directly after a `_respect_rate_limit()` call — then, only when the
details carry a truthy tmdb id, the TMDB keyword lookup, which
`TMDBService.get_movie_keywords` issues with no rate limiter at all.
Returns the assembled `Movie` and the events emitted. -/
def fetchMovie (env : CatalogEnv) (item : ListingItem) : Movie × List Event :=
  let d := env.details item.slug
  let kws := if tmdbTruthy d.ids.tmdb then env.keywords (d.ids.tmdb.getD 0) else []
  let m : Movie :=
    { title := d.title, year := d.year, ids := d.ids, tagline := d.tagline,
      overview := d.overview, released := d.released, runtime := d.runtime,
      country := d.country, updatedAt := d.updatedAt, trailer := d.trailer,
      homepage := d.homepage, status := d.status, language := d.language,
      availableTranslations := d.availableTranslations, genres := d.genres,
      certification := d.certification, stats := env.stats item.slug,
      rating := env.ratings item.slug, keywords := kws }
  (m, [.wait, .detailsReq item.slug, .wait, .statsReq item.slug,
       .wait, .ratingsReq item.slug]
      ++ (if tmdbTruthy d.ids.tmdb then [.keywordsReq (d.ids.tmdb.getD 0)] else []))

/-- Which of the two source loop exits ended the run; `none` while the
loop is still running (or when the model's page budget was exhausted). -/
inductive StopReason
  | limitReached
  | emptyPage
deriving DecidableEq

/-- State of the generator body of `get_top_movies`: the local variables
`movies`, `page`, `total_processed`, plus the batches yielded so far and
the trace of outbound interactions. -/
structure FetchState where
  movies : List Movie
  page : Nat
  totalProcessed : Nat
  batches : List (List Movie × Nat)
  trace : List Event
  stopReason : Option StopReason
deriving DecidableEq

/-- `movies.append(movie_obj); total_processed += 1` (plus the events of
the item's lookups). -/
def pushMovie (s : FetchState) (fm : Movie × List Event) : FetchState :=
  { s with movies := s.movies ++ [fm.1],
           totalProcessed := s.totalProcessed + 1,
           trace := s.trace ++ fm.2 }

/-- `if len(movies) >= self.BATCH_SIZE: yield movies, page; movies = []`. -/
def flushIfFull (s : FetchState) : FetchState :=
  if BATCH_SIZE ≤ s.movies.length then
    { s with batches := s.batches ++ [(s.movies, s.page)], movies := [] }
  else s

/-- Inner `for movie_data in page_movies` loop of `get_top_movies`:
break once `total_processed >= limit`; skip items whose trakt id is in
`self.fetched_ids`; otherwise fetch the item and maybe flush a batch. -/
def processEntries (env : CatalogEnv) (fetchedIds : List Nat) (limit : Nat) :
    List ListingItem → FetchState → FetchState
  | [], s => s
  | item :: rest, s =>
    if limit ≤ s.totalProcessed then s
    else if fetchedIds.contains item.traktId then
      processEntries env fetchedIds limit rest s
    else
      processEntries env fetchedIds limit rest
        (flushIfFull (pushMovie s (fetchMovie env item)))

/-- The `limit` parameter of each listing request:
`min(limit - total_processed, 20)` ("Trakt page size limit"). -/
def pageSize (limit tp : Nat) : Nat := min (limit - tp) 20

/-- One iteration of the `while` body on a non-empty page: record the
rate-limiter wait and the listing request, then process the page's
entries. -/
def runPage (env : CatalogEnv) (fetchedIds : List Nat) (limit : Nat)
    (s : FetchState) : FetchState :=
  processEntries env fetchedIds limit
    (env.popular s.page (pageSize limit s.totalProcessed))
    { s with trace := s.trace
        ++ [.wait, .listingReq s.page (pageSize limit s.totalProcessed)] }

/-- `page += 1` after the inner loop. -/
def nextPage (s : FetchState) : FetchState := { s with page := s.page + 1 }

/-- Outer `while total_processed < limit` loop of `get_top_movies`.
`fuel` bounds how many listing pages the model walks (the Python loop has
no such bound and need not terminate when the catalog keeps producing
already-fetched items; every property proved below holds for every fuel).
On `if not page_movies: break` the wait and listing events of the
iteration have already been emitted. -/
def fetchLoop (env : CatalogEnv) (fetchedIds : List Nat) (limit : Nat) :
    Nat → FetchState → FetchState
  | 0, s => s
  | fuel + 1, s =>
    if s.totalProcessed < limit then
      if (env.popular s.page (pageSize limit s.totalProcessed)).isEmpty then
        { s with
          trace := s.trace
            ++ [Event.wait, Event.listingReq s.page (pageSize limit s.totalProcessed)]
          stopReason := some .emptyPage }
      else
        fetchLoop env fetchedIds limit fuel
          (nextPage (runPage env fetchedIds limit s))
    else { s with stopReason := some .limitReached }

/-- State built by `TraktService.__init__`: the already-fetched id set
`FileHandler.get_fetched_ids()` and
`self.start_page = FileHandler.get_last_page() + 1`. -/
structure TraktState where
  fetchedIds : List Nat
  startPage : Nat
deriving DecidableEq

def TraktService.init (st : StoreState) : TraktState :=
  { fetchedIds := getFetchedIds st, startPage := getLastPage st + 1 }

/-- Local state at the top of `get_top_movies`:
`movies = []`, `page = self.start_page`, `total_processed = 0`. -/
def initialState (svc : TraktState) : FetchState :=
  { movies := [], page := svc.startPage, totalProcessed := 0,
    batches := [], trace := [], stopReason := none }

/-- `if movies: yield movies, page` after the loop: the final partial
batch is yielded when non-empty. -/
def finalYield (s : FetchState) : FetchState :=
  if s.movies.isEmpty then s
  else { s with batches := s.batches ++ [(s.movies, s.page)] }

/-- `TraktService.get_top_movies(limit)`: run the paging loop from
`start_page` with empty locals, then yield any remaining movies. -/
def getTopMovies (svc : TraktState) (env : CatalogEnv) (limit fuel : Nat) :
    FetchState :=
  finalYield (fetchLoop env svc.fetchedIds limit fuel (initialState svc))

/-! Trace observations. -/

def isListing : Event → Bool
  | .listingReq _ _ => true
  | _ => false

/-- The first listing request of a trace. -/
def firstListing (t : List Event) : Option Event := t.find? isListing

/-- The page parameter of the first listing request of a trace. -/
def firstListingPage (t : List Event) : Option Nat :=
  match firstListing t with
  | some (.listingReq p _) => some p
  | _ => none

def sizeOfListing : Event → Option Nat
  | .listingReq _ n => some n
  | _ => none

/-- The size parameters of the listing requests of a trace, in order. -/
def listingSizes (t : List Event) : List Nat := t.filterMap sizeOfListing

/-- Requests that `trakt_service.py` issues through `requests.get`
directly after a `_respect_rate_limit()` call. -/
def isTraktReq : Event → Bool
  | .listingReq _ _ => true
  | .detailsReq _ => true
  | .statsReq _ => true
  | .ratingsReq _ => true
  | _ => false

/-- The four per-item lookups named by the claim: details, stats,
ratings, and the keyword enrichment lookup. -/
def isPerItemReq : Event → Bool
  | .detailsReq _ => true
  | .statsReq _ => true
  | .ratingsReq _ => true
  | .keywordsReq _ => true
  | _ => false

def isWait : Event → Bool
  | .wait => true
  | _ => false

/-- Every event satisfying `p` is immediately preceded by a `wait`;
`prev` stands for the event preceding the list, so a `p`-event at the
head is checked against `prev`. -/
def waitGuardedFrom (p : Event → Bool) (prev : Event) : List Event → Bool
  | [] => true
  | e :: rest => (!(p e) || isWait prev) && waitGuardedFrom p e rest

/-! Structural lemmas about the fetch loop. -/

/-- Total number of items in the batches yielded so far. -/
def sumB (s : FetchState) : Nat := (s.batches.map (fun b => b.1.length)).sum

theorem flushIfFull_trace (s : FetchState) : (flushIfFull s).trace = s.trace := by
  unfold flushIfFull; split <;> rfl

theorem flushIfFull_page (s : FetchState) : (flushIfFull s).page = s.page := by
  unfold flushIfFull; split <;> rfl

theorem flushIfFull_tp (s : FetchState) :
    (flushIfFull s).totalProcessed = s.totalProcessed := by
  unfold flushIfFull; split <;> rfl

theorem flushIfFull_stop (s : FetchState) :
    (flushIfFull s).stopReason = s.stopReason := by
  unfold flushIfFull; split <;> rfl

theorem finalYield_trace (s : FetchState) : (finalYield s).trace = s.trace := by
  unfold finalYield; split <;> rfl

theorem finalYield_stop (s : FetchState) :
    (finalYield s).stopReason = s.stopReason := by
  unfold finalYield; split <;> rfl

theorem listingSizes_append (a b : List Event) :
    listingSizes (a ++ b) = listingSizes a ++ listingSizes b :=
  List.filterMap_append a b sizeOfListing

theorem fetchMovie_noListing (env : CatalogEnv) (item : ListingItem) :
    listingSizes (fetchMovie env item).2 = [] := by
  by_cases h : tmdbTruthy (env.details item.slug).ids.tmdb <;>
    simp [fetchMovie, h, listingSizes, sizeOfListing]

theorem fetchMovie_wg (env : CatalogEnv) (item : ListingItem) (prev : Event) :
    waitGuardedFrom isTraktReq prev (fetchMovie env item).2 = true := by
  by_cases h : tmdbTruthy (env.details item.slug).ids.tmdb <;>
    simp [fetchMovie, h, waitGuardedFrom, isTraktReq, isWait]

theorem waitGuardedFrom_append (p : Event → Bool) :
    ∀ (t u : List Event) (prev : Event),
    waitGuardedFrom p prev (t ++ u)
      = (waitGuardedFrom p prev t && waitGuardedFrom p (t.getLastD prev) u)
  | [], u, prev => by simp [waitGuardedFrom, List.getLastD]
  | e :: t, u, prev => by
    rw [List.cons_append, List.getLastD_cons]
    show ((!p e || isWait prev) && waitGuardedFrom p e (t ++ u))
      = (((!p e || isWait prev) && waitGuardedFrom p e t)
          && waitGuardedFrom p (t.getLastD e) u)
    rw [waitGuardedFrom_append p t u e, Bool.and_assoc]

theorem waitGuardedFrom_append_of {p : Event → Bool} {t u : List Event}
    {prev : Event} (ht : waitGuardedFrom p prev t = true)
    (hu : ∀ q, waitGuardedFrom p q u = true) :
    waitGuardedFrom p prev (t ++ u) = true := by
  rw [waitGuardedFrom_append, ht, hu]
  rfl

theorem processEntries_trace (env : CatalogEnv) (fid : List Nat) (limit : Nat) :
    ∀ (items : List ListingItem) (s : FetchState), ∃ ext,
      (processEntries env fid limit items s).trace = s.trace ++ ext ∧
      (∀ prev, waitGuardedFrom isTraktReq prev ext = true) ∧
      listingSizes ext = []
  | [], s => ⟨[], by simp [processEntries], fun _ => rfl, rfl⟩
  | item :: rest, s => by
    unfold processEntries
    by_cases h1 : limit ≤ s.totalProcessed
    · rw [if_pos h1]
      exact ⟨[], by simp, fun _ => rfl, rfl⟩
    · rw [if_neg h1]
      by_cases h2 : fid.contains item.traktId = true
      · rw [if_pos h2]
        exact processEntries_trace env fid limit rest s
      · rw [if_neg h2]
        obtain ⟨ext, hext, hwg, hls⟩ := processEntries_trace env fid limit rest
          (flushIfFull (pushMovie s (fetchMovie env item)))
        refine ⟨(fetchMovie env item).2 ++ ext, ?_, ?_, ?_⟩
        · rw [hext, flushIfFull_trace]
          show (s.trace ++ (fetchMovie env item).2) ++ ext = _
          rw [List.append_assoc]
        · intro prev
          exact waitGuardedFrom_append_of (fetchMovie_wg env item prev) hwg
        · rw [listingSizes_append, fetchMovie_noListing, hls]
          rfl

theorem processEntries_state (env : CatalogEnv) (fid : List Nat) (limit : Nat) :
    ∀ (items : List ListingItem) (s : FetchState),
      (processEntries env fid limit items s).page = s.page ∧
      (processEntries env fid limit items s).stopReason = s.stopReason ∧
      s.totalProcessed ≤ (processEntries env fid limit items s).totalProcessed ∧
      (s.totalProcessed ≤ limit →
        (processEntries env fid limit items s).totalProcessed ≤ limit)
  | [], _ => ⟨rfl, rfl, le_refl _, fun h => h⟩
  | item :: rest, s => by
    unfold processEntries
    by_cases h1 : limit ≤ s.totalProcessed
    · rw [if_pos h1]
      exact ⟨rfl, rfl, le_refl _, fun h => h⟩
    · rw [if_neg h1]
      by_cases h2 : fid.contains item.traktId = true
      · rw [if_pos h2]
        exact processEntries_state env fid limit rest s
      · rw [if_neg h2]
        obtain ⟨hp, hs, htp, hle⟩ := processEntries_state env fid limit rest
          (flushIfFull (pushMovie s (fetchMovie env item)))
        have hfp : (flushIfFull (pushMovie s (fetchMovie env item))).page = s.page := by
          rw [flushIfFull_page]; rfl
        have hfs : (flushIfFull (pushMovie s (fetchMovie env item))).stopReason
            = s.stopReason := by
          rw [flushIfFull_stop]; rfl
        have hft : (flushIfFull (pushMovie s (fetchMovie env item))).totalProcessed
            = s.totalProcessed + 1 := by
          rw [flushIfFull_tp]; rfl
        refine ⟨by rw [hp, hfp], by rw [hs, hfs], ?_, ?_⟩
        · exact le_trans (Nat.le_succ _) (hft.symm.trans_le htp)
        · intro hlim
          apply hle
          rw [hft]
          omega

theorem processEntries_batches (env : CatalogEnv) (fid : List Nat) (limit : Nat) :
    ∀ (items : List ListingItem) (s : FetchState),
      s.movies.length < BATCH_SIZE →
      (processEntries env fid limit items s).movies.length < BATCH_SIZE ∧
      ∃ new, (processEntries env fid limit items s).batches = s.batches ++ new ∧
        ∀ b ∈ new, b.1.length = BATCH_SIZE
  | [], s, h => ⟨h, [], by simp [processEntries], by simp⟩
  | item :: rest, s, h => by
    unfold processEntries
    by_cases h1 : limit ≤ s.totalProcessed
    · rw [if_pos h1]
      exact ⟨h, [], by simp, by simp⟩
    · rw [if_neg h1]
      by_cases h2 : fid.contains item.traktId = true
      · rw [if_pos h2]
        exact processEntries_batches env fid limit rest s h
      · rw [if_neg h2]
        have hlen : (pushMovie s (fetchMovie env item)).movies.length
            = s.movies.length + 1 := by
          simp [pushMovie]
        by_cases hb : BATCH_SIZE ≤ (pushMovie s (fetchMovie env item)).movies.length
        · have hfb : (flushIfFull (pushMovie s (fetchMovie env item))).batches
              = s.batches ++ [((pushMovie s (fetchMovie env item)).movies, s.page)] := by
            unfold flushIfFull
            rw [if_pos hb]
            rfl
          have hfm : (flushIfFull (pushMovie s (fetchMovie env item))).movies = [] := by
            unfold flushIfFull
            rw [if_pos hb]
          have hexact : (pushMovie s (fetchMovie env item)).movies.length
              = BATCH_SIZE := by
            omega
          obtain ⟨hlt, new, hnew, hall⟩ := processEntries_batches env fid limit rest
            (flushIfFull (pushMovie s (fetchMovie env item)))
            (by rw [hfm]; simp [BATCH_SIZE])
          refine ⟨hlt, ((pushMovie s (fetchMovie env item)).movies, s.page) :: new,
            ?_, ?_⟩
          · rw [hnew, hfb]
            simp
          · intro b hbmem
            rcases List.mem_cons.mp hbmem with hbm | hbm
            · rw [hbm]
              exact hexact
            · exact hall b hbm
        · have hflush : flushIfFull (pushMovie s (fetchMovie env item))
              = pushMovie s (fetchMovie env item) := by
            unfold flushIfFull
            rw [if_neg hb]
          obtain ⟨hlt, new, hnew, hall⟩ := processEntries_batches env fid limit rest
            (flushIfFull (pushMovie s (fetchMovie env item)))
            (by rw [hflush]; omega)
          refine ⟨hlt, new, ?_, hall⟩
          rw [hnew, hflush]
          rfl

theorem processEntries_acc (env : CatalogEnv) (fid : List Nat) (limit : Nat) :
    ∀ (items : List ListingItem) (s : FetchState),
      sumB (processEntries env fid limit items s)
          + (processEntries env fid limit items s).movies.length
          + s.totalProcessed
        = sumB s + s.movies.length
          + (processEntries env fid limit items s).totalProcessed
  | [], _ => by simp [processEntries]
  | item :: rest, s => by
    unfold processEntries
    by_cases h1 : limit ≤ s.totalProcessed
    · rw [if_pos h1]
    · rw [if_neg h1]
      by_cases h2 : fid.contains item.traktId = true
      · rw [if_pos h2]
        exact processEntries_acc env fid limit rest s
      · rw [if_neg h2]
        have key : sumB (flushIfFull (pushMovie s (fetchMovie env item)))
              + (flushIfFull (pushMovie s (fetchMovie env item))).movies.length
            = sumB s + s.movies.length + 1 := by
          unfold flushIfFull
          by_cases hb : BATCH_SIZE ≤ (pushMovie s (fetchMovie env item)).movies.length
          · rw [if_pos hb]
            simp [sumB, pushMovie]
            omega
          · rw [if_neg hb]
            simp [sumB, pushMovie]
            omega
        have htp : (flushIfFull (pushMovie s (fetchMovie env item))).totalProcessed
            = s.totalProcessed + 1 := by
          rw [flushIfFull_tp]; rfl
        have ih := processEntries_acc env fid limit rest
          (flushIfFull (pushMovie s (fetchMovie env item)))
        omega

theorem fetchLoop_state (env : CatalogEnv) (fid : List Nat) (limit : Nat) :
    ∀ (fuel : Nat) (s : FetchState),
      s.totalProcessed ≤ (fetchLoop env fid limit fuel s).totalProcessed ∧
      (s.totalProcessed ≤ limit →
        (fetchLoop env fid limit fuel s).totalProcessed ≤ limit)
  | 0, _ => ⟨le_refl _, fun h => h⟩
  | fuel + 1, s => by
    unfold fetchLoop
    by_cases h1 : s.totalProcessed < limit
    · rw [if_pos h1]
      by_cases h2 : (env.popular s.page (pageSize limit s.totalProcessed)).isEmpty = true
      · rw [if_pos h2]
        exact ⟨le_refl _, fun h => h⟩
      · rw [if_neg h2]
        obtain ⟨ha, hb⟩ := fetchLoop_state env fid limit fuel
          (nextPage (runPage env fid limit s))
        have hst : s.totalProcessed
            ≤ (nextPage (runPage env fid limit s)).totalProcessed :=
          (processEntries_state env fid limit
            (env.popular s.page (pageSize limit s.totalProcessed))
            { s with trace := s.trace
                ++ [Event.wait,
                  Event.listingReq s.page (pageSize limit s.totalProcessed)] }).2.2.1
        have hsl : (nextPage (runPage env fid limit s)).totalProcessed ≤ limit :=
          (processEntries_state env fid limit
            (env.popular s.page (pageSize limit s.totalProcessed))
            { s with trace := s.trace
                ++ [Event.wait,
                  Event.listingReq s.page (pageSize limit s.totalProcessed)] }).2.2.2
            (le_of_lt h1)
        exact ⟨le_trans hst ha, fun _ => hb hsl⟩
    · rw [if_neg h1]
      exact ⟨le_refl _, fun h => h⟩

theorem fetchLoop_stop (env : CatalogEnv) (fid : List Nat) (limit : Nat) :
    ∀ (fuel : Nat) (s : FetchState),
      s.stopReason = none → s.totalProcessed ≤ limit →
      (fetchLoop env fid limit fuel s).stopReason = some StopReason.limitReached →
      (fetchLoop env fid limit fuel s).totalProcessed = limit
  | 0, s, hnone, _, hstop => by
    unfold fetchLoop at hstop
    rw [hnone] at hstop
    cases hstop
  | fuel + 1, s, hnone, hlim, hstop => by
    unfold fetchLoop at hstop ⊢
    by_cases h1 : s.totalProcessed < limit
    · rw [if_pos h1] at hstop ⊢
      by_cases h2 : (env.popular s.page (pageSize limit s.totalProcessed)).isEmpty = true
      · rw [if_pos h2] at hstop ⊢
        exact absurd hstop (by simp)
      · rw [if_neg h2] at hstop ⊢
        refine fetchLoop_stop env fid limit fuel
          (nextPage (runPage env fid limit s)) ?_ ?_ hstop
        · have hs : (runPage env fid limit s).stopReason = s.stopReason :=
            (processEntries_state env fid limit
              (env.popular s.page (pageSize limit s.totalProcessed))
              { s with trace := s.trace
                  ++ [Event.wait,
                    Event.listingReq s.page (pageSize limit s.totalProcessed)] }).2.1
          exact hs.trans hnone
        · exact (processEntries_state env fid limit
            (env.popular s.page (pageSize limit s.totalProcessed))
            { s with trace := s.trace
                ++ [Event.wait,
                  Event.listingReq s.page (pageSize limit s.totalProcessed)] }).2.2.2
            (le_of_lt h1)
    · rw [if_neg h1] at hstop ⊢
      show s.totalProcessed = limit
      omega

theorem fetchLoop_batches (env : CatalogEnv) (fid : List Nat) (limit : Nat) :
    ∀ (fuel : Nat) (s : FetchState),
      s.movies.length < BATCH_SIZE →
      (fetchLoop env fid limit fuel s).movies.length < BATCH_SIZE ∧
      ∃ new, (fetchLoop env fid limit fuel s).batches = s.batches ++ new ∧
        ∀ b ∈ new, b.1.length = BATCH_SIZE
  | 0, s, h => ⟨h, [], by simp [fetchLoop], by simp⟩
  | fuel + 1, s, h => by
    unfold fetchLoop
    by_cases h1 : s.totalProcessed < limit
    · rw [if_pos h1]
      by_cases h2 : (env.popular s.page (pageSize limit s.totalProcessed)).isEmpty = true
      · rw [if_pos h2]
        exact ⟨h, [], by simp, by simp⟩
      · rw [if_neg h2]
        obtain ⟨hp1, new1, hb1, hall1⟩ := processEntries_batches env fid limit
          (env.popular s.page (pageSize limit s.totalProcessed))
          { s with trace := s.trace
              ++ [Event.wait,
                Event.listingReq s.page (pageSize limit s.totalProcessed)] } h
        obtain ⟨hp2, new2, hb2, hall2⟩ := fetchLoop_batches env fid limit fuel
          (nextPage (runPage env fid limit s)) hp1
        refine ⟨hp2, new1 ++ new2, ?_, ?_⟩
        · rw [hb2]
          have hb1' : (nextPage (runPage env fid limit s)).batches
              = s.batches ++ new1 := hb1
          rw [hb1', List.append_assoc]
        · intro b hbm
          rcases List.mem_append.mp hbm with hbm | hbm
          · exact hall1 b hbm
          · exact hall2 b hbm
    · rw [if_neg h1]
      exact ⟨h, [], by simp, by simp⟩

theorem fetchLoop_acc (env : CatalogEnv) (fid : List Nat) (limit : Nat) :
    ∀ (fuel : Nat) (s : FetchState),
      sumB (fetchLoop env fid limit fuel s)
          + (fetchLoop env fid limit fuel s).movies.length + s.totalProcessed
        = sumB s + s.movies.length
          + (fetchLoop env fid limit fuel s).totalProcessed
  | 0, s => by simp [fetchLoop]
  | fuel + 1, s => by
    unfold fetchLoop
    by_cases h1 : s.totalProcessed < limit
    · rw [if_pos h1]
      by_cases h2 : (env.popular s.page (pageSize limit s.totalProcessed)).isEmpty = true
      · rw [if_pos h2]
        rfl
      · rw [if_neg h2]
        have e1 : sumB (runPage env fid limit s)
              + (runPage env fid limit s).movies.length + s.totalProcessed
            = sumB s + s.movies.length
              + (runPage env fid limit s).totalProcessed :=
          processEntries_acc env fid limit
            (env.popular s.page (pageSize limit s.totalProcessed))
            { s with trace := s.trace
                ++ [Event.wait,
                  Event.listingReq s.page (pageSize limit s.totalProcessed)] }
        have e2 : sumB (fetchLoop env fid limit fuel (nextPage (runPage env fid limit s)))
              + (fetchLoop env fid limit fuel
                  (nextPage (runPage env fid limit s))).movies.length
              + (runPage env fid limit s).totalProcessed
            = sumB (runPage env fid limit s)
              + (runPage env fid limit s).movies.length
              + (fetchLoop env fid limit fuel
                  (nextPage (runPage env fid limit s))).totalProcessed :=
          fetchLoop_acc env fid limit fuel (nextPage (runPage env fid limit s))
        omega
    · rw [if_neg h1]
      rfl

theorem fetchLoop_trace (env : CatalogEnv) (fid : List Nat) (limit : Nat) :
    ∀ (fuel : Nat) (s : FetchState), ∃ ext,
      (fetchLoop env fid limit fuel s).trace = s.trace ++ ext ∧
      (∀ prev, waitGuardedFrom isTraktReq prev ext = true) ∧
      (∀ x ∈ listingSizes ext, x ≤ pageSize limit s.totalProcessed) ∧
      List.Chain' (fun a b => b ≤ a) (listingSizes ext)
  | 0, s => ⟨[], by simp [fetchLoop], fun _ => rfl, by simp [listingSizes],
      by simp [listingSizes]⟩
  | fuel + 1, s => by
    unfold fetchLoop
    by_cases h1 : s.totalProcessed < limit
    · rw [if_pos h1]
      by_cases h2 : (env.popular s.page (pageSize limit s.totalProcessed)).isEmpty = true
      · rw [if_pos h2]
        refine ⟨[Event.wait, Event.listingReq s.page (pageSize limit s.totalProcessed)],
          rfl, ?_, ?_, ?_⟩
        · intro prev
          simp [waitGuardedFrom, isTraktReq, isWait]
        · intro x hx
          have hxe : x = pageSize limit s.totalProcessed := by
            simpa [listingSizes, sizeOfListing] using hx
          omega
        · simp [listingSizes, sizeOfListing]
      · rw [if_neg h2]
        obtain ⟨ext1, hext1, hwg1, hls1⟩ := processEntries_trace env fid limit
          (env.popular s.page (pageSize limit s.totalProcessed))
          { s with trace := s.trace
              ++ [Event.wait,
                Event.listingReq s.page (pageSize limit s.totalProcessed)] }
        have hrp : (nextPage (runPage env fid limit s)).trace
            = (s.trace ++ [Event.wait,
                Event.listingReq s.page (pageSize limit s.totalProcessed)]) ++ ext1 :=
          hext1
        obtain ⟨ext2, hext2, hwg2, hsz2, hch2⟩ := fetchLoop_trace env fid limit fuel
          (nextPage (runPage env fid limit s))
        have htpm : s.totalProcessed
            ≤ (nextPage (runPage env fid limit s)).totalProcessed :=
          (processEntries_state env fid limit
            (env.popular s.page (pageSize limit s.totalProcessed))
            { s with trace := s.trace
                ++ [Event.wait,
                  Event.listingReq s.page (pageSize limit s.totalProcessed)] }).2.2.1
        have hmono : pageSize limit ((nextPage (runPage env fid limit s)).totalProcessed)
            ≤ pageSize limit s.totalProcessed := by
          unfold pageSize
          exact min_le_min (Nat.sub_le_sub_left htpm limit) (le_refl 20)
        refine ⟨([Event.wait, Event.listingReq s.page (pageSize limit s.totalProcessed)]
            ++ ext1) ++ ext2, ?_, ?_, ?_, ?_⟩
        · rw [hext2, hrp]
          simp [List.append_assoc]
        · intro prev
          refine waitGuardedFrom_append_of (waitGuardedFrom_append_of ?_ hwg1) hwg2
          simp [waitGuardedFrom, isTraktReq, isWait]
        · intro x hx
          rw [listingSizes_append, listingSizes_append, hls1] at hx
          have hblock : listingSizes [Event.wait,
              Event.listingReq s.page (pageSize limit s.totalProcessed)]
              = [pageSize limit s.totalProcessed] := rfl
          rw [hblock] at hx
          simp only [List.append_nil, List.mem_append, List.mem_singleton] at hx
          rcases hx with hx | hx
          · omega
          · exact le_trans (hsz2 x hx) hmono
        · rw [listingSizes_append, listingSizes_append, hls1]
          have hblock : listingSizes [Event.wait,
              Event.listingReq s.page (pageSize limit s.totalProcessed)]
              = [pageSize limit s.totalProcessed] := rfl
          rw [hblock]
          simp only [List.append_nil, List.singleton_append]
          refine List.chain'_cons'.mpr ⟨?_, hch2⟩
          intro y hy
          exact le_trans (hsz2 y (List.mem_of_mem_head? hy)) hmono
    · rw [if_neg h1]
      exact ⟨[], by simp, fun _ => rfl, by simp [listingSizes], by simp [listingSizes]⟩

theorem getTopMovies_trace (svc : TraktState) (env : CatalogEnv) (limit fuel : Nat) :
    (getTopMovies svc env limit fuel).trace
      = (fetchLoop env svc.fetchedIds limit fuel (initialState svc)).trace := by
  unfold getTopMovies
  rw [finalYield_trace]

/-- The first listing request of any run asks for `start_page` with size
`min(limit - 0, 20)`. -/
theorem run_first_listing (svc : TraktState) (env : CatalogEnv) (limit fuel : Nat)
    (hl : 0 < limit) (hf : 0 < fuel) :
    firstListing ((getTopMovies svc env limit fuel).trace)
      = some (Event.listingReq svc.startPage (pageSize limit 0)) := by
  obtain ⟨f, rfl⟩ : ∃ f, fuel = f + 1 := ⟨fuel - 1, by omega⟩
  rw [getTopMovies_trace]
  unfold fetchLoop
  rw [if_pos (show (initialState svc).totalProcessed < limit from hl)]
  by_cases h2 : (env.popular (initialState svc).page
      (pageSize limit (initialState svc).totalProcessed)).isEmpty = true
  · rw [if_pos h2]
    rfl
  · rw [if_neg h2]
    obtain ⟨ext2, hext2, -, -, -⟩ := fetchLoop_trace env svc.fetchedIds limit f
      (nextPage (runPage env svc.fetchedIds limit (initialState svc)))
    rw [hext2]
    obtain ⟨ext1, hext1, -, -⟩ := processEntries_trace env svc.fetchedIds limit
      (env.popular (initialState svc).page
        (pageSize limit (initialState svc).totalProcessed))
      { initialState svc with trace := (initialState svc).trace
          ++ [Event.wait, Event.listingReq (initialState svc).page
            (pageSize limit (initialState svc).totalProcessed)] }
    have h3 : (nextPage (runPage env svc.fetchedIds limit (initialState svc))).trace
        = [Event.wait, Event.listingReq svc.startPage (pageSize limit 0)] ++ ext1 :=
      hext1
    rw [h3, List.append_assoc]
    rfl

/-! Concrete environments for witnesses and counterexamples. -/

def sampleDetails (traktId : Nat) (slug : String) (tmdb : Option Nat) :
    MovieDetails :=
  { title := "M", year := 2015,
    ids := { trakt := traktId, slug := slug, imdb := none, tmdb := tmdb },
    tagline := none, overview := none, released := none, runtime := none,
    country := none, updatedAt := none, trailer := none, homepage := none,
    status := none, language := none, availableTranslations := [], genres := [],
    certification := none }

/-- A catalog whose listing is always empty. -/
def emptyCatalog : CatalogEnv :=
  { popular := fun _ _ => [], details := fun slug => sampleDetails 1 slug none,
    stats := fun _ => sampleStats, ratings := fun _ => sampleRating,
    keywords := fun _ => [] }

/-- A catalog with one item on page 1 whose details carry tmdb id 7. -/
def tmdbCatalog : CatalogEnv :=
  { popular := fun p n => if p = 1 then [⟨1, "m1"⟩].take n else [],
    details := fun slug => sampleDetails 1 slug (some 7),
    stats := fun _ => sampleStats, ratings := fun _ => sampleRating,
    keywords := fun _ => [⟨5, "k"⟩] }

/-- A catalog with two items on page 1 and no tmdb ids. -/
def twoItemCatalog : CatalogEnv :=
  { popular := fun p n => if p = 1 then ([⟨1, "m1"⟩, ⟨2, "m2"⟩] : List ListingItem).take n else [],
    details := fun slug => sampleDetails (if slug = "m1" then 1 else 2) slug none,
    stats := fun _ => sampleStats, ratings := fun _ => sampleRating,
    keywords := fun _ => [] }

/-- A persisted store whose index records `last_page = 3`. -/
def store3 : StoreState :=
  { files := [], index := { movies := [], lastUpdated := none, lastPage := 3 } }

/-- C1 counterexample: with a stored index whose last page is 3, the first
listing request of the rerun asks for page 4 — not the persisted page 3 —
because `TraktService.__init__` sets `start_page = get_last_page() + 1`. -/
theorem c1_resume_counterexample :
    firstListingPage ((getTopMovies (TraktService.init store3) emptyCatalog 1 1).trace)
      ≠ some (getLastPage store3) := by decide

/-- C1 (amended): on a rerun the fetch sequence starts at the page after
the persisted cursor: for every stored index with last page P, the first
listing request issued by `get_top_movies` is for page P + 1, so the run
continues with the first page after the one recorded by the last
completed `save_movies`. -/
theorem c1_resume_start_page (st : StoreState) (env : CatalogEnv)
    (limit fuel : Nat) (hl : 0 < limit) (hf : 0 < fuel) :
    firstListingPage ((getTopMovies (TraktService.init st) env limit fuel).trace)
      = some (getLastPage st + 1) := by
  have h := run_first_listing (TraktService.init st) env limit fuel hl hf
  unfold firstListingPage
  rw [h]
  rfl

/-- C1 witness: with persisted last page 3, the first listing request of
the rerun is for page 4. -/
theorem c1_resume_start_page_witness :
    firstListingPage ((getTopMovies (TraktService.init store3) emptyCatalog 1 1).trace)
      = some (getLastPage store3 + 1) :=
  c1_resume_start_page store3 emptyCatalog 1 1 (by decide) (by decide)

/-- C3 counterexample: in a run that processes one new item carrying tmdb
id 7, the keyword enrichment request is issued directly after the ratings
request, with no rate-limiter wait in between —
`TMDBService.get_movie_keywords` calls `requests.get` without
`_respect_rate_limit`.  So not all four per-item lookups pass through the
limiter. -/
theorem c3_limiter_counterexample :
    waitGuardedFrom isPerItemReq (Event.keywordsReq 0)
      ((getTopMovies (TraktService.init emptyStore) tmdbCatalog 1 1).trace)
      = false := by decide

/-- C3 (amended): in every run, each Trakt request — the listing request
and the per-item details, stats and ratings lookups — is issued
immediately after a rate-limiter wait; the keyword enrichment request is
the exception: it is issued by the TMDB client without the limiter (see
the counterexample). -/
theorem c3_trakt_requests_guarded (svc : TraktState) (env : CatalogEnv)
    (limit fuel : Nat) :
    waitGuardedFrom isTraktReq (Event.keywordsReq 0)
      ((getTopMovies svc env limit fuel).trace) = true := by
  obtain ⟨ext, hext, hwg, -, -⟩ := fetchLoop_trace env svc.fetchedIds limit fuel
    (initialState svc)
  rw [getTopMovies_trace, hext]
  show waitGuardedFrom isTraktReq (Event.keywordsReq 0) ([] ++ ext) = true
  rw [List.nil_append]
  exact hwg _

/-- C7: every yielded batch except possibly the last has exactly
`BATCH_SIZE` = 50 items; every yielded batch is non-empty (a final
partial batch is still yielded) and no larger than `BATCH_SIZE`; the
total number of items yielded never exceeds `limit`; and when the run
stopped because the limit was reached (rather than via an empty listing
page, the only other exit), the batches hold exactly `limit` items. -/
theorem c7_batch_size_bound (svc : TraktState) (env : CatalogEnv)
    (limit fuel : Nat) :
    (∀ b ∈ (getTopMovies svc env limit fuel).batches.dropLast,
        b.1.length = BATCH_SIZE) ∧
    (∀ b ∈ (getTopMovies svc env limit fuel).batches,
        0 < b.1.length ∧ b.1.length ≤ BATCH_SIZE) ∧
    sumB (getTopMovies svc env limit fuel) ≤ limit ∧
    ((getTopMovies svc env limit fuel).stopReason = some StopReason.limitReached →
      sumB (getTopMovies svc env limit fuel) = limit) := by
  obtain ⟨hlt, new, hbat, hall⟩ := fetchLoop_batches env svc.fetchedIds limit fuel
    (initialState svc) (by simp [initialState, BATCH_SIZE])
  have hbat' : (fetchLoop env svc.fetchedIds limit fuel (initialState svc)).batches
      = new := by
    rw [hbat]
    rfl
  have hacc : sumB (fetchLoop env svc.fetchedIds limit fuel (initialState svc))
      + (fetchLoop env svc.fetchedIds limit fuel (initialState svc)).movies.length
      = (fetchLoop env svc.fetchedIds limit fuel (initialState svc)).totalProcessed := by
    have h := fetchLoop_acc env svc.fetchedIds limit fuel (initialState svc)
    simpa [initialState, sumB] using h
  have htp : (fetchLoop env svc.fetchedIds limit fuel
      (initialState svc)).totalProcessed ≤ limit :=
    (fetchLoop_state env svc.fetchedIds limit fuel (initialState svc)).2
      (Nat.zero_le _)
  have hstop := fetchLoop_stop env svc.fetchedIds limit fuel (initialState svc)
    rfl (Nat.zero_le _)
  unfold getTopMovies finalYield
  by_cases hm : (fetchLoop env svc.fetchedIds limit fuel
      (initialState svc)).movies.isEmpty = true
  · rw [if_pos hm]
    have hmov0 : (fetchLoop env svc.fetchedIds limit fuel
        (initialState svc)).movies.length = 0 := by
      rw [List.isEmpty_iff] at hm
      rw [hm]
      rfl
    refine ⟨?_, ?_, ?_, ?_⟩
    · intro b hb
      rw [hbat'] at hb
      exact hall b ((List.dropLast_sublist new).subset hb)
    · intro b hb
      rw [hbat'] at hb
      have hlb := hall b hb
      rw [hlb]
      exact ⟨by simp [BATCH_SIZE], le_refl _⟩
    · omega
    · intro hsr
      have htot := hstop hsr
      omega
  · rw [if_neg hm]
    have hmovpos : 0 < (fetchLoop env svc.fetchedIds limit fuel
        (initialState svc)).movies.length := by
      apply List.length_pos.mpr
      intro hnil
      rw [List.isEmpty_iff] at hm
      exact hm hnil
    have hdl : ((fetchLoop env svc.fetchedIds limit fuel (initialState svc)).batches
        ++ [((fetchLoop env svc.fetchedIds limit fuel (initialState svc)).movies,
          (fetchLoop env svc.fetchedIds limit fuel (initialState svc)).page)]).dropLast
        = (fetchLoop env svc.fetchedIds limit fuel (initialState svc)).batches := by
      simp
    have hsum : sumB { fetchLoop env svc.fetchedIds limit fuel (initialState svc) with
        batches := (fetchLoop env svc.fetchedIds limit fuel (initialState svc)).batches
          ++ [((fetchLoop env svc.fetchedIds limit fuel (initialState svc)).movies,
            (fetchLoop env svc.fetchedIds limit fuel (initialState svc)).page)] }
        = sumB (fetchLoop env svc.fetchedIds limit fuel (initialState svc))
          + (fetchLoop env svc.fetchedIds limit fuel (initialState svc)).movies.length := by
      simp [sumB]
    refine ⟨?_, ?_, ?_, ?_⟩
    · intro b hb
      have hb2 : b ∈ ((fetchLoop env svc.fetchedIds limit fuel (initialState svc)).batches
          ++ [((fetchLoop env svc.fetchedIds limit fuel (initialState svc)).movies,
            (fetchLoop env svc.fetchedIds limit fuel (initialState svc)).page)]).dropLast :=
        hb
      rw [hdl, hbat'] at hb2
      exact hall b hb2
    · intro b hb
      have hb2 : b ∈ (fetchLoop env svc.fetchedIds limit fuel (initialState svc)).batches
          ++ [((fetchLoop env svc.fetchedIds limit fuel (initialState svc)).movies,
            (fetchLoop env svc.fetchedIds limit fuel (initialState svc)).page)] := hb
      rcases List.mem_append.mp hb2 with hbm | hbm
      · rw [hbat'] at hbm
        have hlb := hall b hbm
        rw [hlb]
        exact ⟨by simp [BATCH_SIZE], le_refl _⟩
      · rw [List.mem_singleton] at hbm
        rw [hbm]
        exact ⟨hmovpos, le_of_lt hlt⟩
    · rw [hsum]
      omega
    · intro hsr
      have htot := hstop hsr
      rw [hsum]
      omega

/-- C7 witness: a run that reaches its limit of 2 yields exactly 2 items
across its batches. -/
theorem c7_batch_size_bound_witness :
    sumB (getTopMovies (TraktService.init emptyStore) twoItemCatalog 2 2) = 2 :=
  (c7_batch_size_bound (TraktService.init emptyStore) twoItemCatalog 2 2).2.2.2
    (by decide)

/-- C10: every listing request of a run carries a size parameter of at
most 20; along the run these sizes are non-increasing (the size is
`min(limit - total_processed, 20)` and `total_processed` only grows); and
the first listing request carries exactly `min(limit, 20)` — so the same
page number denotes different item ranges for runs with different
remaining limits. -/
theorem c10_listing_size (svc : TraktState) (env : CatalogEnv) (limit fuel : Nat) :
    (∀ x ∈ listingSizes ((getTopMovies svc env limit fuel).trace), x ≤ 20) ∧
    List.Chain' (fun a b => b ≤ a)
      (listingSizes ((getTopMovies svc env limit fuel).trace)) ∧
    (0 < limit → 0 < fuel →
      firstListing ((getTopMovies svc env limit fuel).trace)
        = some (Event.listingReq svc.startPage (min limit 20))) := by
  obtain ⟨ext, hext, -, hsz, hch⟩ := fetchLoop_trace env svc.fetchedIds limit fuel
    (initialState svc)
  have htr : (getTopMovies svc env limit fuel).trace = ext := by
    rw [getTopMovies_trace, hext]
    rfl
  refine ⟨?_, ?_, ?_⟩
  · intro x hx
    rw [htr] at hx
    have hxb := hsz x hx
    have h20 : pageSize limit (initialState svc).totalProcessed ≤ 20 :=
      min_le_right _ _
    omega
  · rw [htr]
    exact hch
  · intro hl hf
    rw [run_first_listing svc env limit fuel hl hf]
    rw [show pageSize limit 0 = min limit 20 from by simp [pageSize]]

/-- C10 witness: with limit 5 the first listing request asks for
`min(5, 20) = 5` items. -/
theorem c10_listing_size_witness :
    firstListing ((getTopMovies (TraktService.init emptyStore) twoItemCatalog 5 1).trace)
      = some (Event.listingReq (TraktService.init emptyStore).startPage (min 5 20)) :=
  (c10_listing_size (TraktService.init emptyStore) twoItemCatalog 5 1).2.2
    (by decide) (by decide)

end MovieFetcher
